import Mathlib

/-!
Verification of the rebaseline source-patch engine.

Two implementations live in the repository:
* the interactive engine (`SourceCode`, `RebaselineRequest`, `rebaselineCommand`
  with live offsets and an md5 fingerprint), embedded below in namespace
  `Interactive`;
* the batch engine (`Rebaseline`, `performRebaselines`,
  `extractSourceCodeMatchers` in `rebaseline.ts`), embedded in namespace
  `Batch`.

File text is modelled as `List Char` (one entry per UTF-16 code unit of the
JavaScript string).  External platform builtins (the babel parser, the crypto
hash, JSON.stringify) are modelled at their interface: parsed syntax trees are
an explicit inductive type, the hash is an abstract function parameter, and
JSON serialization is a small executable serializer.
-/

namespace Rebase

/-- Result of the shared binary-search loop: `found i` when `check` hit `0` at
index `i`, `missed l` when the loop exhausted with lower bound `l`. -/
inductive BSResult where
  | found (i : Nat)
  | missed (insertAt : Nat)
deriving DecidableEq, Repr

/-- The loop of `binarySearch` shared verbatim by both source files:
`while (l < r) { m = (l+r)>>1; ... }`.  Out-of-range reads (which the loop
never performs while `r ≤ haystack.length`) yield `default`.  The loop
shrinks `r - l` on every iteration, so it is run on a structural fuel that
is at least `r - l` (the callers pass `haystack.length`); when the fuel hits
zero the interval is already empty and the loop exits with `l`. -/
def bsLoop {α : Type} [Inhabited α] (haystack : List α) (check : α → Int) :
    Nat → Nat → Nat → BSResult
  | 0, l, _ => .missed l
  | fuel + 1, l, r =>
    if l < r then
      if check (haystack.getD ((l + r) / 2) default) < 0 then
        bsLoop haystack check fuel ((l + r) / 2 + 1) r
      else if 0 < check (haystack.getD ((l + r) / 2) default) then
        bsLoop haystack check fuel l ((l + r) / 2)
      else
        .found ((l + r) / 2)
    else
      .missed l

/-- part_002's `binarySearch`: on a miss it returns the final `l`
(the insertion point). -/
def bsIndexOrInsert (r : BSResult) : Nat :=
  match r with
  | .found i => i
  | .missed j => j

/-- rebaseline.ts's `binarySearch`: on a miss it returns `-1`. -/
def bsIndexOrNeg (r : BSResult) : Int :=
  match r with
  | .found i => (i : Int)
  | .missed _ => -1

/-- Splice `text` into `code` over the half-open range `[f, t)`:
`code.substring(0, from) + text + code.substring(to)`. -/
def spliceCode (code : List Char) (f t : Nat) (text : List Char) : List Char :=
  code.take f ++ text ++ code.drop t

/-- The newline-offset table built by both `SourceCode` constructors:
all indices `i` of `code` with `code[i] === '\n'`, in increasing order. -/
def lineEndingsOf (code : List Char) : List Nat :=
  (List.range code.length).filter (fun i => code.getD i ' ' = '\n')

/-- JSON-serializable payload values (the `value` / `newExpected` carried by a
rebaseline request). -/
inductive JsonValue where
  | null
  | bool (b : Bool)
  | num (n : Int)
  | str (s : String)
deriving DecidableEq, Repr, Inhabited

/-- Minimal escaping of a JSON string body (backslash and double quote). -/
def jsonEscapeChar (c : Char) : String :=
  if c = '\\' then "\\\\"
  else if c = '"' then "\\\""
  else String.singleton c

/-- Model of the external builtin `JSON.stringify` on the payload values. -/
def jsonStringify (v : JsonValue) : String :=
  match v with
  | .null => "null"
  | .bool true => "true"
  | .bool false => "false"
  | .num n => toString n
  | .str s => "\"" ++ String.join (s.data.map jsonEscapeChar) ++ "\""

/-! ### The babel syntax-tree model

The extractors look at a call expression's callee and first argument.  The
argument shapes they distinguish: plain literals (numeric / string / boolean /
null), identifiers, unary expressions, array literals, and object literals
whose properties carry a `computed` flag and a key and value expression.
Every node records its `start` and `end` source offsets. -/

mutual
inductive JsExpr where
  | lit (s e : Nat)
  | ident (s e : Nat)
  | unary (op : String) (arg : JsExpr) (s e : Nat)
  | arr (elems : JsExprList) (s e : Nat)
  | obj (props : JsPropList) (s e : Nat)
deriving DecidableEq, Repr

inductive JsExprList where
  | nil
  | cons (head : JsExpr) (tail : JsExprList)
deriving DecidableEq, Repr

inductive JsPropList where
  | nil
  | cons (computed : Bool) (key value : JsExpr) (tail : JsPropList)
deriving DecidableEq, Repr
end

/-- Model of `node.start` of an expression. -/
def exprStart (e : JsExpr) : Nat :=
  match e with
  | .lit s _ => s
  | .ident s _ => s
  | .unary _ _ s _ => s
  | .arr _ s _ => s
  | .obj _ s _ => s

/-- Model of `node.end` of an expression. -/
def exprEnd (e : JsExpr) : Nat :=
  match e with
  | .lit _ e' => e'
  | .ident _ e' => e'
  | .unary _ _ _ e' => e'
  | .arr _ _ e' => e'
  | .obj _ _ e' => e'

/-- Model of `types.isLiteral` of babel restricted to the modelled nodes: only the
plain literal constructor qualifies. -/
def isLiteralExpr (e : JsExpr) : Bool :=
  match e with
  | .lit _ _ => true
  | _ => false

/-- Model of `types.isIdentifier`. -/
def isIdentifierExpr (e : JsExpr) : Bool :=
  match e with
  | .ident _ _ => true
  | _ => false

mutual
/-- The `hasIdentifier` scan of `extractSourceCodeMatchers`: does the argument
contain any identifier reference?  A non-computed object-property key does not
count (its identifier is a property name, not a value reference); identifiers
inside a computed key do count. -/
def containsIdent (e : JsExpr) : Bool :=
  match e with
  | .lit _ _ => false
  | .ident _ _ => true
  | .unary _ a _ _ => containsIdent a
  | .arr es _ _ => containsIdentList es
  | .obj ps _ _ => containsIdentProps ps

def containsIdentList (es : JsExprList) : Bool :=
  match es with
  | .nil => false
  | .cons e rest => containsIdent e || containsIdentList rest

def containsIdentProps (ps : JsPropList) : Bool :=
  match ps with
  | .nil => false
  | .cons computed k v rest =>
      (if computed then containsIdent k
       else if isIdentifierExpr k then false else containsIdent k)
      || containsIdent v || containsIdentProps rest
end

/-- The callee of a call expression, as far as the extractors inspect it:
either a member expression whose property is an identifier (with the
property's name and `start` offset), or anything else. -/
inductive Callee where
  | member (propName : String) (propStart : Nat)
  | other
deriving DecidableEq, Repr

/-- One `CallExpression` delivered by the babel traversal, with its arguments
and its `node.end`. -/
structure JsCall where
  callee : Callee
  args : JsExprList
  callEnd : Nat
deriving DecidableEq, Repr

/-- Insert `x` into `l` before the first element `y` with `le x y = true`. -/
def insertBy {α : Type} (le : α → α → Bool) (x : α) : List α → List α
  | [] => [x]
  | y :: ys => if le x y then x :: y :: ys else y :: insertBy le x ys

/-- Insertion sort; models `Array.prototype.sort` with a total comparator
(the sorted lists the claims touch are untouched by tie-breaking). -/
def sortBy {α : Type} (le : α → α → Bool) : List α → List α
  | [] => []
  | x :: xs => insertBy le x (sortBy le xs)

end Rebase

namespace Batch

open Rebase

/-- The `isSupportedMatcher` predicate of rebaseline.ts. -/
def isSupportedMatcher (matcherName : String) : Bool :=
  matcherName == "toBe" || matcherName == "toEqual"

/-- A byte range `{ from, to }` (`lo`/`hi` stand for the source's `from`/`to`,
which are Lean keywords). -/
structure Range where
  lo : Nat
  hi : Nat
deriving DecidableEq, Repr, Inhabited

/-- rebaseline.ts's `SourceCodeMatcher`: name, whole-call range (from the
callee property's start to the call's end), optional first-argument range. -/
structure SourceCodeMatcher where
  name : String
  range : Range
  argRange : Option Range
deriving DecidableEq, Repr

instance : Inhabited SourceCodeMatcher :=
  ⟨{ name := "", range := default, argRange := none }⟩

/-- The body of the `CallExpression` visitor of `extractSourceCodeMatchers`
for one call: `none` when the call is skipped, `some m` when a matcher is
pushed. -/
def matcherForCall (call : JsCall) : Option SourceCodeMatcher :=
  match call.callee with
  | .other => none
  | .member propName propStart =>
    if isSupportedMatcher propName then
      match call.args with
      | .nil =>
        some { name := propName, range := ⟨propStart, call.callEnd⟩, argRange := none }
      | .cons argument _ =>
        if (if isIdentifierExpr argument then true else containsIdent argument) then
          none
        else
          some { name := propName, range := ⟨propStart, call.callEnd⟩,
                 argRange := some ⟨exprStart argument, exprEnd argument⟩ }
    else none

/-- The extractor `extractSourceCodeMatchers`, over the call expressions produced by the
(babel) traversal of the file: visit each call, then sort by `range.from`. -/
def extractSourceCodeMatchers (calls : List JsCall) : List SourceCodeMatcher :=
  sortBy (fun m1 m2 => m1.range.lo ≤ m2.range.lo) (calls.filterMap matcherForCall)

/-- rebaseline.ts's `binarySearch` (returns `-1` on a miss). -/
def binarySearch {α : Type} [Inhabited α] (haystack : List α) (check : α → Int) : Int :=
  bsIndexOrNeg (bsLoop haystack check haystack.length 0 haystack.length)

/-- rebaseline.ts's `SourceCode`: path, mutable text, the newline table built
once by the constructor, and the dirty flag. -/
structure SourceCode where
  filepath : String
  code : List Char
  lineEndings : List Nat
  hadChanges : Bool
deriving DecidableEq, Repr

/-- The `SourceCode` constructor. -/
def SourceCode.make (filepath : String) (code : List Char) : SourceCode :=
  { filepath := filepath, code := code, lineEndings := lineEndingsOf code,
    hadChanges := false }

/-- The `positionToOffset` conversion (0-based line and column to byte offset). -/
def SourceCode.positionToOffset (sc : SourceCode) (lineNumber columnNumber : Nat) : Nat :=
  if lineNumber = 0 then columnNumber
  else sc.lineEndings.getD (lineNumber - 1) 0 + 1 + columnNumber

/-- rebaseline.ts's `SourceCode.replace`: splice and mark dirty (this variant
tracks no live offsets and cannot fail). -/
def SourceCode.replace (sc : SourceCode) (f t : Nat) (text : List Char) : SourceCode :=
  { sc with hadChanges := true, code := spliceCode sc.code f t text }

/-- The `SourceCode.save` effect: the file is written only when dirty. -/
def SourceCode.savedFile (sc : SourceCode) : Option (String × List Char) :=
  if sc.hadChanges then some (sc.filepath, sc.code) else none

/-- The `RebaselinePayload` fields used by rebaseline.ts (the ipc declaration
itself is not under src/): 1-based line and column per the input-event
interface, the matcher name, and the new expected value. -/
structure RebaselinePayload where
  file : String
  lineNumber : Nat
  columnNumber : Nat
  matcherName : String
  newExpected : JsonValue
deriving DecidableEq, Repr

/-- The store id `lineNumber:columnNumber` (the decimal string with a colon
separator is injective on pairs, so the pair itself serves as the key). -/
def requestId (r : RebaselinePayload) : Nat × Nat :=
  (r.lineNumber, r.columnNumber)

/-- Update the first binding of `k` in place, else append — JavaScript
`Map.set` insertion-order semantics. -/
def setPair {κ ν : Type} [DecidableEq κ] (l : List (κ × ν)) (k : κ) (v : ν) :
    List (κ × ν) :=
  match l with
  | [] => [(k, v)]
  | (k', v') :: rest => if k' = k then (k, v) :: rest else (k', v') :: setPair rest k v

/-- Per-file inner map of `Rebaseline._requests` (id to latest payload). -/
abbrev InnerStore := List ((Nat × Nat) × RebaselinePayload)

/-- The `Rebaseline._requests` store: file to inner map, in insertion order. -/
abbrev RequestStore := List (String × InnerStore)

/-- The `Rebaseline.addRebaseline` registration: get or create the file's inner map and set
`id = line:column` to the request (the last request for a key wins). -/
def addRebaseline (store : RequestStore) (r : RebaselinePayload) : RequestStore :=
  match store with
  | [] => [(r.file, [(requestId r, r)])]
  | (f, inner) :: rest =>
    if f = r.file then (f, setPair inner (requestId r) r) :: rest
    else (f, inner) :: addRebaseline rest r

/-- The comparator of `performRebaselines` (`r2.line - r1.line`, then
`r2.column - r1.column`), as an insertion-sort predicate: `q1` comes before
`q2` when the comparator is non-positive, i.e. descending line then
descending column. -/
def beforeDesc (q1 q2 : RebaselinePayload) : Bool :=
  if q1.lineNumber ≠ q2.lineNumber then q2.lineNumber < q1.lineNumber
  else q2.columnNumber ≤ q1.columnNumber

/-- One iteration of the request loop of `performRebaselines`: resolve the
offset, binary-search the extracted matchers, and either apply the edit or
report the request as unsatisfied. -/
def applyRequest (sc : SourceCode) (allMatchers : List SourceCodeMatcher)
    (request : RebaselinePayload) : SourceCode × Option RebaselinePayload :=
  let offset := sc.positionToOffset (request.lineNumber - 1) (request.columnNumber - 1)
  let index := binarySearch allMatchers (fun m => (m.range.lo : Int) - (offset : Int))
  if index = -1 then (sc, some request)
  else
    let matcher := allMatchers.getD index.toNat default
    if matcher.name = request.matcherName then
      let newExpected := jsonStringify request.newExpected
      match matcher.argRange with
      | some ar => (sc.replace ar.lo ar.hi newExpected.data, none)
      | none =>
        (sc.replace matcher.range.lo matcher.range.hi
          (matcher.name ++ "(" ++ newExpected ++ ")").data, none)
    else (sc, some request)

/-- One turn of the request loop: run `applyRequest` and either keep the
unsatisfied list or push the failed request onto it. -/
def applyStep (allMatchers : List SourceCodeMatcher)
    (acc : SourceCode × List RebaselinePayload) (req : RebaselinePayload) :
    SourceCode × List RebaselinePayload :=
  match applyRequest acc.1 allMatchers req with
  | (sc', none) => (sc', acc.2)
  | (sc', some r) => (sc', acc.2 ++ [r])

/-- The per-file body of `performRebaselines`: read the file, extract the
matchers once, sort the file's requests in reverse order, and fold the
request loop.  Returns the final in-memory source and the unsatisfied
requests in the order they were pushed. -/
def processFile (files : String → List Char) (parseCalls : List Char → List JsCall)
    (file : String) (inner : InnerStore) : SourceCode × List RebaselinePayload :=
  let sc := SourceCode.make file (files file)
  let allMatchers := extractSourceCodeMatchers (parseCalls (files file))
  let requests := sortBy beforeDesc (inner.map Prod.snd)
  requests.foldl (applyStep allMatchers) (sc, [])

/-- The aggregate error message thrown at the end of `performRebaselines`. -/
def aggregateMessage (unsatisfiedRequests : List RebaselinePayload) : String :=
  String.intercalate "\n"
    ("Failed to perform the following rebaselines:" ::
      unsatisfiedRequests.map
        (fun request => "- " ++ request.file ++ ":" ++ toString (request.lineNumber + 1)))

/-- The outcome of one `performRebaselines` run: the final in-memory sources
(every one of them saved-if-dirty before the error check), the unsatisfied
list, and the thrown error, if any. -/
structure BatchRun where
  sources : List SourceCode
  unsatisfied : List RebaselinePayload
  error : Option String
deriving DecidableEq, Repr

/-- The orchestrator `Rebaseline.performRebaselines`, over a file-content oracle `files` and a
parse oracle `parseCalls` (babel is external).  An empty store returns
immediately; otherwise every file's requests are applied, all sources are
saved, and a non-empty unsatisfied list raises the aggregate error. -/
def performRebaselines (files : String → List Char)
    (parseCalls : List Char → List JsCall) (store : RequestStore) : BatchRun :=
  match store with
  | [] => { sources := [], unsatisfied := [], error := none }
  | _ =>
    let processed := store.map (fun fi => processFile files parseCalls fi.1 fi.2)
    let sources := processed.map Prod.fst
    let unsatisfiedRequests := (processed.map Prod.snd).flatten
    { sources := sources, unsatisfied := unsatisfiedRequests,
      error :=
        if unsatisfiedRequests.isEmpty then none
        else some (aggregateMessage unsatisfiedRequests) }

/-- The files written by the `sc.save()` pass. -/
def savedFiles (run : BatchRun) : List (String × List Char) :=
  run.sources.filterMap SourceCode.savedFile

end Batch

namespace Interactive

open Rebase

/-- The keys of part_002's `supportedMatchers` registry. -/
def isSupportedMatcherName (matcherName : String) : Bool :=
  matcherName == "toBe" || matcherName == "toEqual" ||
  matcherName == "toMatchSnapshot" || matcherName == "toHaveScreenshot"

/-- part_002's `SourceCodeMatcher`: matcher name, the live offset of the
callee property's start, and optional live offsets of the first argument's
start and end.  Live offsets are modelled by value here (their rebasing under
edits is the `SourceCode.replace` model below). -/
structure SourceCodeMatcher where
  name : String
  offset : Nat
  argStart : Option Nat
  argEnd : Option Nat
deriving DecidableEq, Repr

instance : Inhabited SourceCodeMatcher := ⟨{ name := "", offset := 0, argStart := none, argEnd := none }⟩

/-- The error thrown by `SourceCode.replace` when a live offset falls strictly
inside the edited range. -/
def internalOffsetError : String :=
  "internal error: LiveOffset was removed due to edit operation"

/-- part_002's `SourceCode`: path, mutable text, the newline table built once
by the constructor, the registered live offsets (the arena of offset cells,
listed in registration order), the dirty flag, and the memoized md5 digest
(`""` when invalidated; the hash function itself is external and abstracted
where needed). -/
structure SourceCode where
  filepath : String
  code : List Char
  lineEndings : List Nat
  liveOffsets : List Nat
  hadChanges : Bool
  md5 : String
deriving DecidableEq, Repr

/-- The `SourceCode` constructor. -/
def SourceCode.make (filepath : String) (code : List Char) : SourceCode :=
  { filepath := filepath, code := code, lineEndings := lineEndingsOf code,
    liveOffsets := [], hadChanges := false, md5 := "" }

/-- The `SourceCode.liveOffset` registration of a new live offset. -/
def SourceCode.liveOffset (sc : SourceCode) (offset : Nat) : SourceCode :=
  { sc with liveOffsets := sc.liveOffsets ++ [offset] }

/-- The per-offset body of the rebasing loop inside `SourceCode.replace`:
offsets at or before `from` are untouched, offsets at or beyond `to` are
shifted by the edit's length delta (`-to + from + text.length`), and an
offset strictly inside `[from, to)`... actually strictly inside `(from, to)`
... raises the fatal internal-offset error. -/
def rebaseOffset (f t textLen p : Nat) : Except String Nat :=
  if p ≤ f then .ok p
  else if t ≤ p then .ok (p - t + f + textLen)
  else .error internalOffsetError

/-- part_002's `SourceCode.replace`: mark dirty, clear the memoized hash,
splice the text, and rebase every registered live offset (the first offset
strictly inside the range aborts the edit with the fatal error, exactly as
the `throw` does). -/
def SourceCode.replace (sc : SourceCode) (f t : Nat) (text : List Char) :
    Except String SourceCode := do
  let offs ← sc.liveOffsets.mapM (rebaseOffset f t text.length)
  return { sc with hadChanges := true, md5 := "",
                   code := spliceCode sc.code f t text,
                   liveOffsets := offs }

/-- The `positionToOffset` conversion (identical formula to the batch variant). -/
def SourceCode.positionToOffset (sc : SourceCode) (lineNumber columnNumber : Nat) : Nat :=
  if lineNumber = 0 then columnNumber
  else sc.lineEndings.getD (lineNumber - 1) 0 + 1 + columnNumber

/-- part_002's `binarySearch` (returns the insertion point on a miss). -/
def binarySearch {α : Type} [Inhabited α] (haystack : List α) (check : α → Int) : Nat :=
  bsIndexOrInsert (bsLoop haystack check haystack.length 0 haystack.length)

/-- The `offsetToPosition` conversion: binary-search the newline table, then subtract the
previous line ending. -/
def SourceCode.offsetToPosition (sc : SourceCode) (offset : Nat) : Nat × Nat :=
  let lineNumber := binarySearch sc.lineEndings (fun le => (le : Int) - (offset : Int))
  let columnNumber :=
    if lineNumber = 0 then offset else offset - sc.lineEndings.getD (lineNumber - 1) 0 - 1
  (lineNumber, columnNumber)

/-- A 0-based `(line, column)` position lying within the text: the line
exists, and the position's resolved offset does not run past the line's
terminating newline (for the final, newline-less line: past the end of the
text). -/
def SourceCode.validPosition (sc : SourceCode) (lineNumber columnNumber : Nat) : Prop :=
  (lineNumber < sc.lineEndings.length ∧
    sc.positionToOffset lineNumber columnNumber ≤ sc.lineEndings.getD lineNumber 0)
  ∨ (lineNumber = sc.lineEndings.length ∧
    sc.positionToOffset lineNumber columnNumber ≤ sc.code.length)

instance (sc : SourceCode) (l c : Nat) : Decidable (sc.validPosition l c) := by
  unfold SourceCode.validPosition
  infer_instance

/-- The body of the `CallExpression` visitor of `_ensureMatchers` for one
call: skipped unless the callee property is a supported matcher name and the
first argument, when present, satisfies `types.isLiteral`.  The `argStart` /
`argEnd` guards mirror the source's truthiness tests `argument && argument.start`
and `argument && argument.end` (an offset of `0` is falsy). -/
def matcherForCall (call : JsCall) : Option SourceCodeMatcher :=
  match call.callee with
  | .other => none
  | .member propName propStart =>
    if isSupportedMatcherName propName then
      match call.args with
      | .nil => some { name := propName, offset := propStart, argStart := none, argEnd := none }
      | .cons argument _ =>
        if isLiteralExpr argument then
          some { name := propName, offset := propStart,
                 argStart := if exprStart argument ≠ 0 then some (exprStart argument) else none,
                 argEnd := if exprEnd argument ≠ 0 then some (exprEnd argument) else none }
        else none
    else none

/-- The extractor `_ensureMatchers` over the call expressions produced by the (babel)
traversal: visit each call, then sort by offset. -/
def ensureMatchers (calls : List JsCall) : List SourceCodeMatcher :=
  sortBy (fun m1 m2 => m1.offset ≤ m2.offset) (calls.filterMap matcherForCall)

/-- The lookup `SourceCode.findMatcher` over the already-extracted matcher list:
binary-search by offset and check the name.  On a miss the part_002
`binarySearch` yields the insertion point, so `matchers[index]` can be a
matcher at a different offset. -/
def findMatcher (matchers : List SourceCodeMatcher) (name : String) (offset : Nat) :
    Option SourceCodeMatcher :=
  let index := binarySearch matchers (fun matcher => (matcher.offset : Int) - (offset : Int))
  match matchers.get? index with
  | some result => if result.name = name then some result else none
  | none => none

/-- The `inlineReplace` strategy: stringify the value and replace the argument range;
a matcher without argument offsets throws the internal error. -/
def inlineReplace (matcher : SourceCodeMatcher) (value : JsonValue) (sc : SourceCode) :
    Except String SourceCode :=
  let newValue := jsonStringify value
  match matcher.argStart, matcher.argEnd with
  | some s, some e => sc.replace s e newValue.data
  | _, _ => .error "internal error: cannot replace value"

/-- The application step of `rebaselineCommand` for one accepted request:
locate the matcher (a `none` is the fatal processing error), then dispatch
through the `supportedMatchers` registry — `toBe` / `toEqual` edit the source
via `inlineReplace`, the snapshot matchers copy artifact files and leave the
source text unchanged. -/
def applyAccepted (matchers : List SourceCodeMatcher) (matcherName : String)
    (offset : Nat) (value : JsonValue) (sc : SourceCode) : Except String SourceCode :=
  match findMatcher matchers matcherName offset with
  | none => .error "internal error: failed to process"
  | some matcher =>
    if matcherName == "toBe" || matcherName == "toEqual" then
      inlineReplace matcher value sc
    else
      .ok sc

/-- The serialized form of a request (`RawRebaselineRequest`), restricted to
the fields `fromJSON` consults plus the payload value. -/
structure RawRebaselineRequest where
  matcherName : String
  offset : Nat
  file : String
  md5hash : String
  value : JsonValue
deriving DecidableEq, Repr

/-- The in-memory `RebaselineRequest` built by the constructor from a raw
request (the live offset is registered against the owning source file; the
request keeps its value). -/
structure RebaselineRequest where
  filepath : String
  matcherName : String
  offset : Nat
  value : JsonValue
deriving DecidableEq, Repr

/-- The `RebaselineRequest` constructor, given the raw request's file. -/
def mkRequest (raw : RawRebaselineRequest) : RebaselineRequest :=
  { filepath := raw.file, matcherName := raw.matcherName, offset := raw.offset,
    value := raw.value }

/-- The per-element body of `fromJSON`: a raw request whose stored fingerprint
differs from the current fingerprint of its source file becomes `undefined`
(dropped), otherwise the request is constructed.  `hashOfFile` abstracts
`SourceCode.read` followed by `md5hash()`. -/
def processRaw (hashOfFile : String → String) (raw : RawRebaselineRequest) :
    Option RebaselineRequest :=
  if hashOfFile raw.file = raw.md5hash then some (mkRequest raw) else none

/-- The sort at the end of `fromJSON`: by file path, then by offset. -/
def requestLE (r1 r2 : RebaselineRequest) : Bool :=
  if r1.filepath ≠ r2.filepath then r1.filepath < r2.filepath
  else r1.offset ≤ r2.offset

/-- The loader `RebaselineRequest.fromJSON`: construct each non-stale request, drop the
`undefined` entries, and sort. -/
def fromJSON (hashOfFile : String → String) (rawRequests : List RawRebaselineRequest) :
    List RebaselineRequest :=
  sortBy requestLE (rawRequests.filterMap (processRaw hashOfFile))

end Interactive

/-! ## Helper lemmas -/

namespace Rebase

theorem getD_eq_get {α : Type} (l : List α) (i : Nat) (d : α) (h : i < l.length) :
    l.getD i d = l.get ⟨i, h⟩ := by
  simp [List.getD_eq_getElem?_getD, List.getElem?_eq_getElem h]

theorem bsLoop_found {α : Type} [Inhabited α] (hay : List α) (check : α → Int) :
    ∀ fuel l r m, bsLoop hay check fuel l r = .found m →
      l ≤ m ∧ m < r ∧ check (hay.getD m default) = 0 := by
  intro fuel
  induction fuel with
  | zero =>
    intro l r m hres
    simp only [bsLoop] at hres
    exact absurd hres (by simp)
  | succ n ih =>
    intro l r m hres
    simp only [bsLoop] at hres
    by_cases hlr : l < r
    · rw [if_pos hlr] at hres
      by_cases hc1 : check (hay.getD ((l + r) / 2) default) < 0
      · rw [if_pos hc1] at hres
        have h := ih ((l + r) / 2 + 1) r m hres
        exact ⟨by omega, h.2.1, h.2.2⟩
      · rw [if_neg hc1] at hres
        by_cases hc2 : 0 < check (hay.getD ((l + r) / 2) default)
        · rw [if_pos hc2] at hres
          have h := ih l ((l + r) / 2) m hres
          exact ⟨h.1, by omega, h.2.2⟩
        · rw [if_neg hc2] at hres
          cases hres
          exact ⟨by omega, by omega, by omega⟩
    · rw [if_neg hlr] at hres
      exact absurd hres (by simp)

theorem bsLoop_not_found {α : Type} [Inhabited α] (hay : List α) (check : α → Int)
    (hno : ∀ i, i < hay.length → check (hay.getD i default) ≠ 0)
    (fuel l r m : Nat) (hr : r ≤ hay.length) : bsLoop hay check fuel l r ≠ .found m := by
  intro hres
  have h := bsLoop_found hay check fuel l r m hres
  exact hno m (by omega) h.2.2

theorem bsLoop_target {α : Type} [Inhabited α] (hay : List α) (check : α → Int) (t : Nat)
    (h0 : ∀ i, i < hay.length → i < t → check (hay.getD i default) < 0)
    (h1 : ∀ i, i < hay.length → t < i → 0 < check (hay.getD i default))
    (h2 : t < hay.length → 0 ≤ check (hay.getD t default)) :
    ∀ fuel l r, r - l ≤ fuel → r ≤ hay.length → l ≤ t → t ≤ r →
      bsIndexOrInsert (bsLoop hay check fuel l r) = t := by
  intro fuel
  induction fuel with
  | zero =>
    intro l r hn hr hl ht
    simp only [bsLoop, bsIndexOrInsert]
    omega
  | succ n ih =>
    intro l r hn hr hl ht
    simp only [bsLoop]
    by_cases hlr : l < r
    · rw [if_pos hlr]
      have hmlen : (l + r) / 2 < hay.length := by omega
      by_cases hc1 : check (hay.getD ((l + r) / 2) default) < 0
      · rw [if_pos hc1]
        have hmt : (l + r) / 2 < t := by
          rcases Nat.lt_or_ge ((l + r) / 2) t with h | h
          · exact h
          · exfalso
            rcases Nat.eq_or_lt_of_le h with he | hlt
            · have h2' := h2 (by omega)
              rw [← he] at hc1
              omega
            · have h1' := h1 ((l + r) / 2) hmlen hlt
              omega
        exact ih ((l + r) / 2 + 1) r (by omega) hr (by omega) ht
      · rw [if_neg hc1]
        by_cases hc2 : 0 < check (hay.getD ((l + r) / 2) default)
        · rw [if_pos hc2]
          have hmt : t ≤ (l + r) / 2 := by
            rcases Nat.lt_or_ge ((l + r) / 2) t with h | h
            · exfalso
              have h0' := h0 ((l + r) / 2) hmlen h
              omega
            · exact h
          exact ih l ((l + r) / 2) (by omega) (by omega) hl hmt
        · have hmeq : (l + r) / 2 = t := by
            rcases Nat.lt_trichotomy ((l + r) / 2) t with h | h | h
            · have h0' := h0 ((l + r) / 2) hmlen h
              omega
            · exact h
            · have h1' := h1 ((l + r) / 2) hmlen h
              omega
          rw [if_neg hc2]
          simpa [bsIndexOrInsert] using hmeq
    · rw [if_neg hlr]
      simp [bsIndexOrInsert]
      omega

theorem except_bind_ok {ε α β : Type} (a : α) (g : α → Except ε β) :
    (Except.ok a >>= g) = g a := rfl

theorem except_bind_error {ε α β : Type} (e : ε) (g : α → Except ε β) :
    ((Except.error e : Except ε α) >>= g) = Except.error e := rfl

theorem except_pure {ε α : Type} (a : α) : (pure a : Except ε α) = .ok a := rfl

theorem mapM_ok_iff {ε α β : Type} (f : α → Except ε β) (xs : List α) :
    (∃ ys, xs.mapM f = .ok ys) ↔ ∀ x ∈ xs, ∃ y, f x = .ok y := by
  induction xs with
  | nil =>
    constructor
    · intro _ x hx
      exact absurd hx (by simp)
    · intro _
      exact ⟨[], by rw [List.mapM_nil]; rfl⟩
  | cons x xs ih =>
    rw [List.mapM_cons]
    constructor
    · rintro ⟨ys, hys⟩ z hz
      cases hfx : f x with
      | error e => rw [hfx, except_bind_error] at hys; exact absurd hys (by simp)
      | ok y =>
        rw [hfx, except_bind_ok] at hys
        cases hrest : xs.mapM f with
        | error e => rw [hrest, except_bind_error] at hys; exact absurd hys (by simp)
        | ok ys' =>
          rw [List.mem_cons] at hz
          rcases hz with hz | hz
          · exact ⟨y, by rw [hz]; exact hfx⟩
          · exact (ih.mp ⟨ys', hrest⟩) z hz
    · intro hall
      obtain ⟨y, hy⟩ := hall x (by simp)
      obtain ⟨ys', hys'⟩ := ih.mpr (fun z hz => hall z (by simp [hz]))
      exact ⟨y :: ys', by rw [hy, except_bind_ok, hys', except_bind_ok, except_pure]⟩

theorem mapM_ok_get? {ε α β : Type} (f : α → Except ε β) :
    ∀ (xs : List α) (ys : List β), xs.mapM f = .ok ys →
      ∀ i x, xs.get? i = some x → ∃ y, ys.get? i = some y ∧ f x = .ok y := by
  intro xs
  induction xs with
  | nil => intro ys _ i x hx; simp at hx
  | cons a as ih =>
    intro ys hys i x hx
    rw [List.mapM_cons] at hys
    cases hfa : f a with
    | error e => rw [hfa, except_bind_error] at hys; exact absurd hys (by simp)
    | ok y =>
      rw [hfa, except_bind_ok] at hys
      cases hrest : as.mapM f with
      | error e => rw [hrest, except_bind_error] at hys; exact absurd hys (by simp)
      | ok ys' =>
        rw [hrest, except_bind_ok, except_pure] at hys
        cases hys
        cases i with
        | zero =>
          simp only [List.get?_cons_zero, Option.some.injEq] at hx
          subst hx
          exact ⟨y, by simp, hfa⟩
        | succ i =>
          simp only [List.get?_cons_succ] at hx ⊢
          exact ih ys' hrest i x hx

theorem mapM_error_or_ok {ε α β : Type} (f : α → Except ε β) (msg : ε)
    (hdich : ∀ x, f x = .error msg ∨ ∃ y, f x = .ok y) (xs : List α) :
    xs.mapM f = .error msg ∨ ∃ ys, xs.mapM f = .ok ys := by
  induction xs with
  | nil => exact Or.inr ⟨[], by rw [List.mapM_nil]; rfl⟩
  | cons a as ih =>
    rw [List.mapM_cons]
    rcases hdich a with ha | ⟨y, hy⟩
    · rw [ha, except_bind_error]
      exact Or.inl rfl
    · rw [hy, except_bind_ok]
      rcases ih with hih | ⟨ys, hys⟩
      · rw [hih, except_bind_error]
        exact Or.inl rfl
      · rw [hys, except_bind_ok, except_pure]
        exact Or.inr ⟨y :: ys, rfl⟩

theorem insertBy_perm {α : Type} (le : α → α → Bool) (x : α) (l : List α) :
    (insertBy le x l).Perm (x :: l) := by
  induction l with
  | nil => simp [insertBy]
  | cons y ys ih =>
    rw [insertBy]
    by_cases h : le x y
    · rw [if_pos h]
    · rw [if_neg h]
      exact ((ih.cons y).trans (List.Perm.swap x y ys))

theorem sortBy_perm {α : Type} (le : α → α → Bool) (l : List α) :
    (sortBy le l).Perm l := by
  induction l with
  | nil => simp [sortBy]
  | cons x xs ih =>
    exact (insertBy_perm le x (sortBy le xs)).trans (ih.cons x)

theorem mem_sortBy {α : Type} (le : α → α → Bool) (l : List α) (a : α) :
    a ∈ sortBy le l ↔ a ∈ l :=
  (sortBy_perm le l).mem_iff

theorem sortBy_pair {α : Type} (le : α → α → Bool) (a b : α) :
    sortBy le [a, b] = if le a b then [a, b] else [b, a] := by
  simp [sortBy, insertBy]

theorem lineEndingsOf_sorted (code : List Char) :
    (lineEndingsOf code).Pairwise (· < ·) :=
  (List.pairwise_lt_range code.length).filter _

theorem lineEndingsOf_lt (code : List Char) :
    ∀ x ∈ lineEndingsOf code, x < code.length := by
  intro x hx
  have := List.of_mem_filter hx
  have hmem := List.mem_of_mem_filter hx
  exact (List.mem_range).mp hmem

end Rebase

namespace Interactive

open Rebase

theorem replace_eq (sc : SourceCode) (f t : Nat) (text : List Char) :
    sc.replace f t text =
      match sc.liveOffsets.mapM (rebaseOffset f t text.length) with
      | .ok offs =>
          .ok { sc with hadChanges := true, md5 := "",
                        code := spliceCode sc.code f t text,
                        liveOffsets := offs }
      | .error e => .error e := by
  unfold SourceCode.replace
  cases h : sc.liveOffsets.mapM (rebaseOffset f t text.length) with
  | ok offs => rfl
  | error e => rfl

theorem rebaseOffset_ok_iff (f t n p : Nat) :
    (∃ y, rebaseOffset f t n p = .ok y) ↔ ¬ (f < p ∧ p < t) := by
  unfold rebaseOffset
  by_cases h1 : p ≤ f
  · rw [if_pos h1]
    constructor
    · intro _; omega
    · intro _; exact ⟨p, rfl⟩
  · rw [if_neg h1]
    by_cases h2 : t ≤ p
    · rw [if_pos h2]
      constructor
      · intro _; omega
      · intro _; exact ⟨p - t + f + n, rfl⟩
    · rw [if_neg h2]
      constructor
      · rintro ⟨y, hy⟩; exact absurd hy (by simp)
      · intro h; exact absurd ⟨by omega, by omega⟩ h

theorem rebaseOffset_dichotomy (f t n p : Nat) :
    rebaseOffset f t n p = .error internalOffsetError ∨ ∃ y, rebaseOffset f t n p = .ok y := by
  unfold rebaseOffset
  by_cases h1 : p ≤ f
  · exact Or.inr ⟨p, by rw [if_pos h1]⟩
  · by_cases h2 : t ≤ p
    · exact Or.inr ⟨p - t + f + n, by rw [if_neg h1, if_pos h2]⟩
    · exact Or.inl (by rw [if_neg h1, if_neg h2])

theorem rebaseOffset_low (f t n p : Nat) (h : p ≤ f) : rebaseOffset f t n p = .ok p := by
  unfold rebaseOffset
  rw [if_pos h]

theorem rebaseOffset_high (f t n p : Nat) (h1 : ¬ p ≤ f) (h2 : t ≤ p) :
    rebaseOffset f t n p = .ok (p - t + f + n) := by
  unfold rebaseOffset
  rw [if_neg h1, if_pos h2]

end Interactive

/-! ## The claims -/

/-- C2: `replace(from, to, text)` on a source file fails with the fatal
internal-offset error exactly when some registered live offset lies strictly
inside `(from, to)`; with no such offset the edit succeeds. -/
theorem c2_replace_error_iff (sc : Interactive.SourceCode) (f t : Nat) (text : List Char) :
    (sc.replace f t text = .error Interactive.internalOffsetError ↔
      ∃ p ∈ sc.liveOffsets, f < p ∧ p < t)
    ∧ ((∃ sc', sc.replace f t text = .ok sc') ↔
      ∀ p ∈ sc.liveOffsets, ¬ (f < p ∧ p < t)) := by
  have hdich := Rebase.mapM_error_or_ok (Interactive.rebaseOffset f t text.length)
    Interactive.internalOffsetError
    (fun p => Interactive.rebaseOffset_dichotomy f t text.length p) sc.liveOffsets
  have hok : (∃ sc', sc.replace f t text = .ok sc') ↔
      ∃ offs, sc.liveOffsets.mapM (Interactive.rebaseOffset f t text.length) = .ok offs := by
    rw [Interactive.replace_eq]
    cases h : sc.liveOffsets.mapM (Interactive.rebaseOffset f t text.length) with
    | ok offs =>
      constructor
      · intro _; exact ⟨offs, rfl⟩
      · intro _; exact ⟨_, rfl⟩
    | error e =>
      constructor
      · rintro ⟨sc', hsc'⟩; exact absurd hsc' (by simp)
      · rintro ⟨offs, hoffs⟩; exact absurd hoffs (by simp)
  have herr : sc.replace f t text = .error Interactive.internalOffsetError ↔
      sc.liveOffsets.mapM (Interactive.rebaseOffset f t text.length)
        = .error Interactive.internalOffsetError := by
    rw [Interactive.replace_eq]
    cases h : sc.liveOffsets.mapM (Interactive.rebaseOffset f t text.length) with
    | ok offs => simp
    | error e => simp
  constructor
  · rw [herr]
    constructor
    · intro hmapm
      have hnotall : ¬ ∀ p ∈ sc.liveOffsets, ∃ y,
          Interactive.rebaseOffset f t text.length p = .ok y := by
        intro hall
        rcases (Rebase.mapM_ok_iff _ _).mpr hall with ⟨ys, hys⟩
        rw [hys] at hmapm
        exact absurd hmapm (by simp)
      push_neg at hnotall
      rcases hnotall with ⟨p, hp, hpok⟩
      refine ⟨p, hp, ?_⟩
      by_contra hcon
      exact hpok ((Interactive.rebaseOffset_ok_iff f t text.length p).mpr hcon).choose
        ((Interactive.rebaseOffset_ok_iff f t text.length p).mpr hcon).choose_spec
    · rintro ⟨p, hp, hinside⟩
      rcases hdich with h | ⟨ys, hys⟩
      · exact h
      · exfalso
        have hall := (Rebase.mapM_ok_iff _ _).mp ⟨ys, hys⟩
        have := (Interactive.rebaseOffset_ok_iff f t text.length p).mp (hall p hp)
        exact this hinside
  · rw [hok]
    constructor
    · rintro ⟨offs, hoffs⟩ p hp
      exact (Interactive.rebaseOffset_ok_iff f t text.length p).mp
        (((Rebase.mapM_ok_iff _ _).mp ⟨offs, hoffs⟩) p hp)
    · intro hall
      exact (Rebase.mapM_ok_iff _ _).mpr
        (fun p hp => (Interactive.rebaseOffset_ok_iff f t text.length p).mpr (hall p hp))

/-- C1 as stated is false at a pure insertion exactly at a tracked offset:
with a live offset at `p = 1` and the edit `replace(1, 1, "X")` (`a = b = 1 ≤ p`,
so the claim demands the new value `p + len("X") - (b - a) = 2`), the code
leaves the offset at `1` because the rebasing loop skips every offset with
`value <= from`. -/
theorem c1_insertion_counterexample :
    (((Interactive.SourceCode.make "f" "ab".data).liveOffset 1).replace 1 1 ['X']).map
        Interactive.SourceCode.liveOffsets = .ok [1]
    ∧ [1] ≠ [1 + ['X'].length - (1 - 1)] := by
  constructor
  · rfl
  · decide

/-- C1, amended: after a successful `replace(a, b, s)` with `a ≤ b`, a
registered live offset of value `p` is shifted to `p + len(s) - (b - a)` when
`b ≤ p` *and `a < p`*, and is unchanged when `a ≥ p` (the source treats an
offset equal to the edit start as "before the edit", so a pure insertion at
`p` itself leaves the offset in place). -/
theorem c1_liveOffset_rebasing (sc : Interactive.SourceCode) (a b : Nat) (s : List Char)
    (sc' : Interactive.SourceCode) (hab : a ≤ b)
    (hok : sc.replace a b s = .ok sc') (i p : Nat)
    (hp : sc.liveOffsets.get? i = some p) :
    (b ≤ p → a < p → sc'.liveOffsets.get? i = some (p + s.length - (b - a)))
    ∧ (a ≥ p → sc'.liveOffsets.get? i = some p) := by
  rw [Interactive.replace_eq] at hok
  rcases hmap : sc.liveOffsets.mapM (Interactive.rebaseOffset a b s.length) with e | offs
  · rw [hmap] at hok
    exact absurd hok (by simp)
  · rw [hmap] at hok
    simp only [Except.ok.injEq] at hok
    have hoffs : sc'.liveOffsets = offs := by rw [← hok]
    obtain ⟨y, hy, hfy⟩ := Rebase.mapM_ok_get? _ _ _ hmap i p hp
    constructor
    · intro hbp hap
      rw [Interactive.rebaseOffset_high a b s.length p (by omega) hbp] at hfy
      have : y = p - b + a + s.length := by
        simpa using hfy.symm
      rw [hoffs, hy, this]
      congr 1
      omega
    · intro hpa
      rw [Interactive.rebaseOffset_low a b s.length p (by omega)] at hfy
      have : y = p := by simpa using hfy.symm
      rw [hoffs, hy, this]

/-- Witness for C1 (amended): on `"abcdef"` with a live offset at `5`, the
edit `replace(3, 4, "XY")` succeeds and moves the offset to
`5 + 2 - (4 - 3) = 6`. -/
theorem c1_liveOffset_rebasing_witness :
    ((Interactive.SourceCode.make "f" "abcdef".data).liveOffset 5).replace 3 4 ['X', 'Y']
      = .ok { filepath := "f", code := "abcXYef".data, lineEndings := [],
              liveOffsets := [6], hadChanges := true, md5 := "" }
    ∧ ({ filepath := "f", code := "abcXYef".data, lineEndings := [],
         liveOffsets := [6], hadChanges := true, md5 := "" } :
        Interactive.SourceCode).liveOffsets.get? 0 = some (5 + 2 - (4 - 3)) := by
  refine ⟨by rfl, ?_⟩
  have h := (c1_liveOffset_rebasing
    ((Interactive.SourceCode.make "f" "abcdef".data).liveOffset 5) 3 4 ['X', 'Y']
    ({ filepath := "f", code := "abcXYef".data, lineEndings := [], liveOffsets := [6],
       hadChanges := true, md5 := "" }) (by decide) (by rfl) 0 5 (by decide)).1
    (by decide) (by decide)
  exact h

namespace Interactive

open Rebase

theorem offsetToPosition_positionToOffset (sc : SourceCode)
    (hsorted : sc.lineEndings.Pairwise (· < ·)) (l c : Nat)
    (h : sc.validPosition l c) :
    sc.offsetToPosition (sc.positionToOffset l c) = (l, c) := by
  have hl_le : l ≤ sc.lineEndings.length := by
    rcases h with ⟨h1, _⟩ | ⟨h1, _⟩
    · omega
    · omega
  have hgetD : ∀ i j, i < j → j < sc.lineEndings.length →
      sc.lineEndings.getD i default < sc.lineEndings.getD j default := by
    intro i j hij hj
    rw [getD_eq_get _ i _ (by omega), getD_eq_get _ j _ hj]
    exact List.pairwise_iff_get.mp hsorted ⟨i, by omega⟩ ⟨j, hj⟩ hij
  have ho : sc.positionToOffset l c =
      if l = 0 then c else sc.lineEndings.getD (l - 1) 0 + 1 + c := rfl
  have h0 : ∀ i, i < sc.lineEndings.length → i < l →
      ((sc.lineEndings.getD i default : Int) - (sc.positionToOffset l c : Int) < 0) := by
    intro i hi hil
    have hl0 : l ≠ 0 := by omega
    rw [ho, if_neg hl0]
    have hle : sc.lineEndings.getD i default ≤ sc.lineEndings.getD (l - 1) default := by
      rcases Nat.lt_or_ge i (l - 1) with hlt | hge
      · exact Nat.le_of_lt (hgetD i (l - 1) hlt (by omega))
      · have hieq : i = l - 1 := by omega
        rw [hieq]
    have hdd : sc.lineEndings.getD (l - 1) (0 : Nat)
        = sc.lineEndings.getD (l - 1) default := rfl
    rw [hdd]
    omega
  have h1 : ∀ i, i < sc.lineEndings.length → l < i →
      0 < (sc.lineEndings.getD i default : Int) - (sc.positionToOffset l c : Int) := by
    intro i hi hli
    have hllen : l < sc.lineEndings.length := by omega
    have hole : sc.positionToOffset l c ≤ sc.lineEndings.getD l default := by
      rcases h with ⟨_, h2⟩ | ⟨h1', _⟩
      · exact h2
      · omega
    have hgl := hgetD l i hli hi
    omega
  have h2 : l < sc.lineEndings.length →
      0 ≤ (sc.lineEndings.getD l default : Int) - (sc.positionToOffset l c : Int) := by
    intro hllen
    rcases h with ⟨_, hh⟩ | ⟨h1', _⟩
    · have : sc.positionToOffset l c ≤ sc.lineEndings.getD l default := hh
      omega
    · omega
  have hbs := bsLoop_target sc.lineEndings
    (fun x => (x : Int) - (sc.positionToOffset l c : Int)) l h0 h1 h2
    sc.lineEndings.length 0 sc.lineEndings.length (by omega) (by omega) (by omega) hl_le
  have hline : binarySearch sc.lineEndings
      (fun x => (x : Int) - (sc.positionToOffset l c : Int)) = l := hbs
  simp only [SourceCode.offsetToPosition]
  rw [hline]
  rcases Nat.eq_zero_or_pos l with hl0 | hlpos
  · subst hl0
    simp [SourceCode.positionToOffset]
  · have hl0 : l ≠ 0 := by omega
    rw [if_neg hl0, ho, if_neg hl0]
    have : sc.lineEndings.getD (l - 1) 0 + 1 + c - sc.lineEndings.getD (l - 1) 0 - 1 = c := by
      omega
    rw [this]

end Interactive

/-- C10: for every text and every 0-based `(line, column)` position lying
within it, `offsetToPosition (positionToOffset line column) = (line, column)`. -/
theorem c10_position_roundtrip (filepath : String) (code : List Char) (l c : Nat)
    (h : (Interactive.SourceCode.make filepath code).validPosition l c) :
    (Interactive.SourceCode.make filepath code).offsetToPosition
      ((Interactive.SourceCode.make filepath code).positionToOffset l c) = (l, c) :=
  Interactive.offsetToPosition_positionToOffset _ (Rebase.lineEndingsOf_sorted code) l c h

/-- Witness for C10: on `"ab\ncd"`, position `(1, 1)` resolves to offset `4`
and back to `(1, 1)`. -/
theorem c10_position_roundtrip_witness :
    (Interactive.SourceCode.make "f" "ab\ncd".data).validPosition 1 1
    ∧ (Interactive.SourceCode.make "f" "ab\ncd".data).offsetToPosition
        ((Interactive.SourceCode.make "f" "ab\ncd".data).positionToOffset 1 1) = (1, 1) :=
  ⟨by decide, c10_position_roundtrip "f" "ab\ncd".data 1 1 (by decide)⟩

namespace Rebase

theorem containsIdent_not_lit (e : JsExpr) (h : containsIdent e = true) :
    isLiteralExpr e = false := by
  cases e with
  | lit s e' => rw [containsIdent] at h; exact absurd h (by simp)
  | ident s e' => rfl
  | unary op a s e' => rfl
  | arr es s e' => rfl
  | obj ps s e' => rfl

theorem supported_mono (n : String) (h : Batch.isSupportedMatcher n = true) :
    Interactive.isSupportedMatcherName n = true := by
  unfold Batch.isSupportedMatcher at h
  unfold Interactive.isSupportedMatcherName
  simp only [Bool.or_eq_true] at h ⊢
  rcases h with h | h
  · exact Or.inl (Or.inl (Or.inl h))
  · exact Or.inl (Or.inl (Or.inr h))

end Rebase

/-- C3: for a supported-matcher call with exactly one argument, an argument
containing a free identifier reference yields no matcher from either
extractor, while a plain literal argument yields exactly one matcher carrying
an argument range from each extractor (the interactive extractor's truthiness
guard needs the literal's offsets to be non-zero, which holds for any
argument inside a call). -/
theorem c3_eligibility_filter (call : Rebase.JsCall) (name : String) (ps : Nat)
    (arg : Rebase.JsExpr)
    (hcallee : call.callee = .member name ps)
    (hsup : Batch.isSupportedMatcher name = true)
    (hargs : call.args = .cons arg .nil) :
    (Rebase.containsIdent arg = true →
      Batch.matcherForCall call = none ∧ Interactive.matcherForCall call = none)
    ∧ (∀ s e, arg = .lit s e →
      Batch.matcherForCall call =
        some { name := name, range := ⟨ps, call.callEnd⟩, argRange := some ⟨s, e⟩ }
      ∧ (0 < s → 0 < e →
        Interactive.matcherForCall call =
          some { name := name, offset := ps, argStart := some s, argEnd := some e })) := by
  have hsupI := Rebase.supported_mono name hsup
  constructor
  · intro hci
    constructor
    · unfold Batch.matcherForCall
      rw [hcallee, hargs]
      simp only [hsup, if_true]
      cases harg : Rebase.isIdentifierExpr arg
      · simp [harg, hci]
      · simp [harg]
    · unfold Interactive.matcherForCall
      rw [hcallee, hargs]
      simp only [hsupI, if_true]
      simp [Rebase.containsIdent_not_lit arg hci]
  · intro s e hlit
    subst hlit
    constructor
    · unfold Batch.matcherForCall
      rw [hcallee, hargs]
      simp only [hsup, if_true]
      simp [Rebase.isIdentifierExpr, Rebase.containsIdent, Rebase.exprStart, Rebase.exprEnd]
    · intro hs he
      unfold Interactive.matcherForCall
      rw [hcallee, hargs]
      simp only [hsupI, if_true]
      simp only [Rebase.isLiteralExpr, if_true]
      rw [if_pos (by simpa [Rebase.exprStart] using Nat.pos_iff_ne_zero.mp hs),
          if_pos (by simpa [Rebase.exprEnd] using Nat.pos_iff_ne_zero.mp he)]
      simp [Rebase.exprStart, Rebase.exprEnd]

/-- Witness for C3: `expect(1).toBe(2)` (a call of `toBe` at offset 10 with
the literal `2` spanning offsets 15..16) yields exactly one matcher with an
argument range from each extractor. -/
theorem c3_eligibility_filter_witness :
    Batch.matcherForCall ⟨.member "toBe" 10, .cons (.lit 15 16) .nil, 17⟩ =
      some { name := "toBe", range := ⟨10, 17⟩, argRange := some ⟨15, 16⟩ }
    ∧ Interactive.matcherForCall ⟨.member "toBe" 10, .cons (.lit 15 16) .nil, 17⟩ =
      some { name := "toBe", offset := 10, argStart := some 15, argEnd := some 16 } := by
  have h := (c3_eligibility_filter ⟨.member "toBe" 10, .cons (.lit 15 16) .nil, 17⟩
    "toBe" 10 (.lit 15 16) rfl (by decide) rfl).2 15 16 rfl
  exact ⟨h.1, h.2 (by decide) (by decide)⟩

/-- C9 fails on the interactive extractor: `_ensureMatchers` admits only
arguments satisfying `types.isLiteral`, and a unary-negated literal such as
`-1` is a `UnaryExpression`, not a literal, so the call
(here a `toBe` at offset 10 with argument `-1` spanning 15..17) is skipped
even though `toBe` is a supported matcher. -/
theorem c9_interactive_counterexample :
    Interactive.isSupportedMatcherName "toBe" = true
    ∧ Interactive.matcherForCall
        ⟨.member "toBe" 10, .cons (.unary "-" (.lit 16 17) 15 17) .nil, 18⟩ = none := by
  constructor
  · decide
  · rfl

/-- C9, amended: the batch extractor (`extractSourceCodeMatchers`) records a
matcher with both the whole-call range and the argument range for a
supported-matcher call whose single argument is a unary-negated literal; the
interactive extractor (`_ensureMatchers`), which admits only plain literal
arguments, skips such a call. -/
theorem c9_batch_unary_literal (call : Rebase.JsCall) (name op : String)
    (ps us ue s e : Nat)
    (hcallee : call.callee = .member name ps)
    (hsup : Batch.isSupportedMatcher name = true)
    (hargs : call.args = .cons (.unary op (.lit s e) us ue) .nil) :
    Batch.matcherForCall call =
      some { name := name, range := ⟨ps, call.callEnd⟩, argRange := some ⟨us, ue⟩ } := by
  unfold Batch.matcherForCall
  rw [hcallee, hargs]
  simp only [hsup, if_true]
  simp [Rebase.isIdentifierExpr, Rebase.containsIdent, Rebase.exprStart, Rebase.exprEnd]

/-- Witness for C9 (amended): `toBe(-1)` through the batch extractor. -/
theorem c9_batch_unary_literal_witness :
    Batch.matcherForCall ⟨.member "toBe" 10, .cons (.unary "-" (.lit 16 17) 15 17) .nil, 18⟩ =
      some { name := "toBe", range := ⟨10, 18⟩, argRange := some ⟨15, 17⟩ } :=
  c9_batch_unary_literal ⟨.member "toBe" 10, .cons (.unary "-" (.lit 16 17) 15 17) .nil, 18⟩
    "toBe" "-" 10 15 17 16 17 rfl (by decide) rfl

namespace Batch

open Rebase

theorem binarySearch_found {α : Type} [Inhabited α] (hay : List α) (check : α → Int)
    (hne : binarySearch hay check ≠ -1) :
    ∃ m : Nat, binarySearch hay check = (m : Int) ∧ m < hay.length
      ∧ check (hay.getD m default) = 0 := by
  unfold binarySearch at hne ⊢
  cases hb : bsLoop hay check hay.length 0 hay.length with
  | found m =>
    have h := bsLoop_found hay check hay.length 0 hay.length m hb
    exact ⟨m, rfl, h.2.1, h.2.2⟩
  | missed j =>
    rw [hb] at hne
    exact absurd rfl hne

theorem binarySearch_none {α : Type} [Inhabited α] (hay : List α) (check : α → Int)
    (hno : ∀ x ∈ hay, check x ≠ 0) : binarySearch hay check = -1 := by
  unfold binarySearch
  cases hb : bsLoop hay check hay.length 0 hay.length with
  | found m =>
    exfalso
    refine bsLoop_not_found hay check ?_ hay.length 0 hay.length m (le_refl _) hb
    intro i hi
    rw [getD_eq_get hay i default hi]
    exact hno _ (List.get_mem hay i hi)
  | missed j => rfl

theorem replace_lineEndings (sc : SourceCode) (f t : Nat) (text : List Char) :
    (sc.replace f t text).lineEndings = sc.lineEndings := rfl

theorem positionToOffset_congr (sc sc' : SourceCode)
    (h : sc.lineEndings = sc'.lineEndings) (l c : Nat) :
    sc.positionToOffset l c = sc'.positionToOffset l c := by
  unfold SourceCode.positionToOffset
  rw [h]

theorem applyRequest_shape (sc : SourceCode) (ms : List SourceCodeMatcher)
    (req : RebaselinePayload) :
    applyRequest sc ms req = (sc, some req)
    ∨ ∃ a b txt, applyRequest sc ms req = (sc.replace a b txt, none) := by
  simp only [applyRequest]
  split
  · exact Or.inl rfl
  · split
    · split
      · exact Or.inr ⟨_, _, _, rfl⟩
      · exact Or.inr ⟨_, _, _, rfl⟩
    · exact Or.inl rfl

theorem applyRequest_lineEndings (sc : SourceCode) (ms : List SourceCodeMatcher)
    (req : RebaselinePayload) :
    (applyRequest sc ms req).1.lineEndings = sc.lineEndings := by
  rcases applyRequest_shape sc ms req with h | ⟨a, b, txt, h⟩
  · rw [h]
  · rw [h]
    rfl

theorem applyRequest_applied (sc : SourceCode) (ms : List SourceCodeMatcher)
    (req : RebaselinePayload) (i : Nat)
    (hbs : binarySearch ms
        (fun m => (m.range.lo : Int) -
          (sc.positionToOffset (req.lineNumber - 1) (req.columnNumber - 1) : Int))
      = (i : Int))
    (hname : (ms.getD i default).name = req.matcherName) :
    (applyRequest sc ms req).2 = none := by
  simp only [applyRequest]
  rw [hbs, if_neg (by omega : ¬ (i : Int) = -1)]
  simp only [Int.toNat_natCast]
  rw [if_pos hname]
  cases (ms.getD i default).argRange <;> rfl

theorem applyStep_applied (ms : List SourceCodeMatcher)
    (acc : SourceCode × List RebaselinePayload) (req : RebaselinePayload)
    (h : (applyRequest acc.1 ms req).2 = none) :
    applyStep ms acc req = ((applyRequest acc.1 ms req).1, acc.2) := by
  unfold applyStep
  rcases happ : applyRequest acc.1 ms req with ⟨sc', u⟩
  rw [happ] at h
  simp only at h
  subst h
  rfl

theorem performRebaselines_single (files : String → List Char)
    (parseCalls : List Char → List JsCall) (f : String) (inner : InnerStore) :
    performRebaselines files parseCalls [(f, inner)] =
      { sources := [(processFile files parseCalls f inner).1],
        unsatisfied := (processFile files parseCalls f inner).2,
        error :=
          if (processFile files parseCalls f inner).2.isEmpty then none
          else some (aggregateMessage (processFile files parseCalls f inner).2) } := by
  simp only [performRebaselines, List.map_cons, List.map_nil, List.flatten_cons,
    List.flatten_nil, List.append_nil]

end Batch

/-- C4, amended: in batch mode the claim holds — an edit is performed only
when some extracted matcher's whole-call range starts exactly at the
request's resolved offset with a matching name, and with no matcher starting
at that offset the request is left unapplied.  (In interactive mode the claim
fails; see the counterexample.) -/
theorem c4_batch_exact_match (sc : Batch.SourceCode)
    (allMatchers : List Batch.SourceCodeMatcher) (request : Batch.RebaselinePayload) :
    ((Batch.applyRequest sc allMatchers request).2 = none →
      ∃ matcher ∈ allMatchers,
        matcher.range.lo =
          sc.positionToOffset (request.lineNumber - 1) (request.columnNumber - 1)
        ∧ matcher.name = request.matcherName)
    ∧ ((∀ matcher ∈ allMatchers,
          matcher.range.lo ≠
            sc.positionToOffset (request.lineNumber - 1) (request.columnNumber - 1)) →
        Batch.applyRequest sc allMatchers request = (sc, some request)) := by
  constructor
  · intro happ
    by_cases hidx : Batch.binarySearch allMatchers
        (fun m => (m.range.lo : Int) -
          (sc.positionToOffset (request.lineNumber - 1) (request.columnNumber - 1) : Int))
      = -1
    · exfalso
      simp only [Batch.applyRequest, hidx, if_pos] at happ
      exact absurd happ (by simp)
    · obtain ⟨m, him, hmlen, hcheck⟩ := Batch.binarySearch_found _ _ hidx
      have hlo : (allMatchers.getD m default).range.lo =
          sc.positionToOffset (request.lineNumber - 1) (request.columnNumber - 1) := by
        omega
      by_cases hname : (allMatchers.getD m default).name = request.matcherName
      · refine ⟨allMatchers.getD m default, ?_, hlo, hname⟩
        rw [Rebase.getD_eq_get _ m _ hmlen]
        exact List.get_mem allMatchers m hmlen
      · exfalso
        simp only [Batch.applyRequest, him, if_neg (by omega : ¬ (m : Int) = -1),
          Int.toNat_natCast, if_neg hname] at happ
        exact absurd happ (by simp)
  · intro hall
    have hno : ∀ x ∈ allMatchers,
        (x.range.lo : Int) -
          (sc.positionToOffset (request.lineNumber - 1) (request.columnNumber - 1) : Int)
          ≠ 0 := by
      intro x hx
      have := hall x hx
      omega
    have hbs := Batch.binarySearch_none allMatchers _ hno
    simp only [Batch.applyRequest, hbs, if_pos]

/-- Witness for C4 (amended): a request at line 1, column 11 of
`"expect(1).toBe(2);"` resolves to offset 10, where the lone extracted
matcher starts; its edit is performed, and the matched matcher is exhibited. -/
theorem c4_batch_exact_match_witness :
    ∃ matcher ∈ ([{ name := "toBe", range := ⟨10, 17⟩, argRange := some ⟨15, 16⟩ }] :
        List Batch.SourceCodeMatcher),
      matcher.range.lo =
        (Batch.SourceCode.make "a" "expect(1).toBe(2);".data).positionToOffset (1 - 1) (11 - 1)
      ∧ matcher.name = "toBe" :=
  (c4_batch_exact_match (Batch.SourceCode.make "a" "expect(1).toBe(2);".data)
    [{ name := "toBe", range := ⟨10, 17⟩, argRange := some ⟨15, 16⟩ }]
    { file := "a", lineNumber := 1, columnNumber := 11, matcherName := "toBe",
      newExpected := .num 1 }).1 (by decide)

/-- C4 fails in interactive mode: part_002's `binarySearch` returns the
*insertion point* on a miss, so `findMatcher` can return a matcher whose
offset differs from the requested one whenever the names coincide, and the
accepted request's edit is then performed even though no matcher starts at
the request's offset (here the only matcher starts at 5, the request is at 3,
and the file text is edited). -/
theorem c4_interactive_counterexample :
    Interactive.findMatcher
        [{ name := "toBe", offset := 5, argStart := some 8, argEnd := some 9 }] "toBe" 3
      = some { name := "toBe", offset := 5, argStart := some 8, argEnd := some 9 }
    ∧ (5 : Nat) ≠ 3
    ∧ Interactive.applyAccepted
        [{ name := "toBe", offset := 5, argStart := some 8, argEnd := some 9 }]
        "toBe" 3 (.num 2) (Interactive.SourceCode.make "f" "0123456789".data)
      = .ok { filepath := "f", code := "0123456729".data, lineEndings := [],
              liveOffsets := [], hadChanges := true, md5 := "" }
    ∧ "0123456729".data ≠ "0123456789".data := by
  refine ⟨rfl, by decide, rfl, by decide⟩

/-- C8, amended: in batch mode, a matched inline-value request whose matcher
has no argument range replaces the whole-call range with
`matcherName(JSON value)`, and in every other case only the argument range is
replaced.  (The interactive engine instead fails with an internal error on a
matcher without argument offsets; see the counterexample.) -/
theorem c8_whole_call_splice (sc : Batch.SourceCode)
    (allMatchers : List Batch.SourceCodeMatcher) (request : Batch.RebaselinePayload)
    (i : Nat)
    (hbs : Batch.binarySearch allMatchers
        (fun m => (m.range.lo : Int) -
          (sc.positionToOffset (request.lineNumber - 1) (request.columnNumber - 1) : Int))
      = (i : Int))
    (hname : (allMatchers.getD i default).name = request.matcherName) :
    ((allMatchers.getD i default).argRange = none →
      Batch.applyRequest sc allMatchers request =
        (sc.replace (allMatchers.getD i default).range.lo
          (allMatchers.getD i default).range.hi
          ((allMatchers.getD i default).name ++ "(" ++
            Rebase.jsonStringify request.newExpected ++ ")").data, none))
    ∧ (∀ ar, (allMatchers.getD i default).argRange = some ar →
      Batch.applyRequest sc allMatchers request =
        (sc.replace ar.lo ar.hi (Rebase.jsonStringify request.newExpected).data, none)) := by
  constructor
  · intro har
    simp only [Batch.applyRequest, hbs, if_neg (by omega : ¬ (i : Int) = -1),
      Int.toNat_natCast, if_pos hname, har]
  · intro ar har
    simp only [Batch.applyRequest, hbs, if_neg (by omega : ¬ (i : Int) = -1),
      Int.toNat_natCast, if_pos hname, har]

/-- Witness for C8 (amended): `expect(x).toBe()` with an inline-value request
for `1` becomes `expect(x).toBe(1)` — the whole-call range 10..16 is replaced
with `toBe(1)`. -/
theorem c8_whole_call_splice_witness :
    (Batch.applyRequest (Batch.SourceCode.make "a" "expect(x).toBe()".data)
        [{ name := "toBe", range := ⟨10, 16⟩, argRange := none }]
        { file := "a", lineNumber := 1, columnNumber := 11, matcherName := "toBe",
          newExpected := .num 1 }).1.code = "expect(x).toBe(1)".data
    ∧ (Batch.applyRequest (Batch.SourceCode.make "a" "expect(x).toBe()".data)
        [{ name := "toBe", range := ⟨10, 16⟩, argRange := none }]
        { file := "a", lineNumber := 1, columnNumber := 11, matcherName := "toBe",
          newExpected := .num 1 }).2 = none := by
  have h := (c8_whole_call_splice (Batch.SourceCode.make "a" "expect(x).toBe()".data)
    [{ name := "toBe", range := ⟨10, 16⟩, argRange := none }]
    { file := "a", lineNumber := 1, columnNumber := 11, matcherName := "toBe",
      newExpected := .num 1 } 0 (by decide) (by decide)).1 (by decide)
  rw [h]
  exact ⟨by decide, rfl⟩

/-- C8 fails in interactive mode: `inlineReplace` on a matcher without
argument offsets throws the internal error instead of splicing
`matcherName(value)` over the whole call. -/
theorem c8_interactive_counterexample :
    Interactive.inlineReplace
        { name := "toBe", offset := 10, argStart := none, argEnd := none }
        (.num 1) (Interactive.SourceCode.make "f" "expect(x).toBe()".data)
      = .error "internal error: cannot replace value" := rfl

/-- C5: on load (`RebaselineRequest.fromJSON`), a raw request whose stored
fingerprint differs from the current fingerprint of its source file is
dropped — it maps to `undefined` and never reaches the result, with no error
raised and no edit applied (the loader is a total function that only filters
and sorts) — while a raw request whose fingerprint matches is constructed
and kept in the result. -/
theorem c5_stale_requests (hashOfFile : String → String)
    (rawRequests : List Interactive.RawRebaselineRequest)
    (raw : Interactive.RawRebaselineRequest) (hmem : raw ∈ rawRequests) :
    (hashOfFile raw.file ≠ raw.md5hash → Interactive.processRaw hashOfFile raw = none)
    ∧ (hashOfFile raw.file = raw.md5hash →
        Interactive.processRaw hashOfFile raw = some (Interactive.mkRequest raw)
        ∧ Interactive.mkRequest raw ∈ Interactive.fromJSON hashOfFile rawRequests) := by
  constructor
  · intro hne
    unfold Interactive.processRaw
    rw [if_neg hne]
  · intro heq
    have hp : Interactive.processRaw hashOfFile raw = some (Interactive.mkRequest raw) := by
      unfold Interactive.processRaw
      rw [if_pos heq]
    refine ⟨hp, ?_⟩
    unfold Interactive.fromJSON
    rw [Rebase.mem_sortBy]
    exact List.mem_filterMap.mpr ⟨raw, hmem, hp⟩

/-- Witness for C5: with the current fingerprint of every file being `"H1"`,
a raw request recorded against `"H1"` is kept (and the stale `"H2"` sibling in
the same store exercises the drop branch of the same theorem). -/
theorem c5_stale_requests_witness :
    Interactive.processRaw (fun _ => "H1")
        { matcherName := "toBe", offset := 10, file := "a.ts", md5hash := "H1",
          value := .num 1 }
      = some (Interactive.mkRequest
          { matcherName := "toBe", offset := 10, file := "a.ts", md5hash := "H1",
            value := .num 1 })
    ∧ Interactive.mkRequest
        { matcherName := "toBe", offset := 10, file := "a.ts", md5hash := "H1",
          value := .num 1 }
      ∈ Interactive.fromJSON (fun _ => "H1")
          [{ matcherName := "toBe", offset := 10, file := "a.ts", md5hash := "H1",
             value := .num 1 },
           { matcherName := "toBe", offset := 20, file := "b.ts", md5hash := "H2",
             value := .num 2 }] :=
  (c5_stale_requests (fun _ => "H1")
    [{ matcherName := "toBe", offset := 10, file := "a.ts", md5hash := "H1", value := .num 1 },
     { matcherName := "toBe", offset := 20, file := "b.ts", md5hash := "H2", value := .num 2 }]
    { matcherName := "toBe", offset := 10, file := "a.ts", md5hash := "H1", value := .num 1 }
    (by simp)).2 rfl

/-- C6: the aggregate batch error exists and is a single error naming every
unmatched request, but the printed line is `lineNumber + 1` applied to the
already 1-based `lineNumber` (the same function uses `lineNumber - 1` to
resolve the request's offset two lines above): an unmatched request at line 8
is reported as `a.spec.js:9`, not `a.spec.js:8` as the claim (and the repo's
own tests, which expect `:8` for the call on line 8) require. -/
theorem c6_unsatisfied_line_off_by_one :
    (Batch.performRebaselines (fun _ => "expect(1).toBe(2);".data) (fun _ => [])
        (Batch.addRebaseline []
          { file := "a.spec.js", lineNumber := 8, columnNumber := 5,
            matcherName := "toBe", newExpected := .num 1 })).error
      = some "Failed to perform the following rebaselines:\n- a.spec.js:9"
    ∧ (Batch.performRebaselines (fun _ => "expect(1).toBe(2);".data) (fun _ => [])
        (Batch.addRebaseline []
          { file := "a.spec.js", lineNumber := 8, columnNumber := 5,
            matcherName := "toBe", newExpected := .num 1 })).error
      ≠ some "Failed to perform the following rebaselines:\n- a.spec.js:8" := by
  constructor
  · rfl
  · decide

namespace Batch

open Rebase

theorem applyStep_applied' (ms : List SourceCodeMatcher) (sc : SourceCode)
    (u : List RebaselinePayload) (req : RebaselinePayload)
    (h : (applyRequest sc ms req).2 = none) :
    applyStep ms (sc, u) req = ((applyRequest sc ms req).1, u) := by
  unfold applyStep
  rcases happ : applyRequest sc ms req with ⟨sc', w⟩
  rw [happ] at h
  simp only at h
  subst h
  rfl

end Batch

/-- C7: for two inline-value requests on the same line of one file at
distinct columns, batch apply is registration-order independent (the store
built from either registration order leads to the same run outcome,
including the final file text) and, when both requests' offsets hit
name-matching extracted matchers, both edits are applied and nothing is
unsatisfied — the engine sorts the file's requests by descending line then
descending column before applying. -/
theorem c7_batch_order_independence (files : String → List Char)
    (parseCalls : List Char → List Rebase.JsCall) (r1 r2 : Batch.RebaselinePayload)
    (hfile : r1.file = r2.file) (hline : r1.lineNumber = r2.lineNumber)
    (hcol : r1.columnNumber ≠ r2.columnNumber)
    (h1 : ∃ i : Nat,
      Batch.binarySearch (Batch.extractSourceCodeMatchers (parseCalls (files r1.file)))
        (fun m => (m.range.lo : Int) -
          ((Batch.SourceCode.make r1.file (files r1.file)).positionToOffset
            (r1.lineNumber - 1) (r1.columnNumber - 1) : Int)) = (i : Int)
      ∧ ((Batch.extractSourceCodeMatchers (parseCalls (files r1.file))).getD i default).name
          = r1.matcherName)
    (h2 : ∃ i : Nat,
      Batch.binarySearch (Batch.extractSourceCodeMatchers (parseCalls (files r1.file)))
        (fun m => (m.range.lo : Int) -
          ((Batch.SourceCode.make r1.file (files r1.file)).positionToOffset
            (r2.lineNumber - 1) (r2.columnNumber - 1) : Int)) = (i : Int)
      ∧ ((Batch.extractSourceCodeMatchers (parseCalls (files r1.file))).getD i default).name
          = r2.matcherName) :
    Batch.performRebaselines files parseCalls
        (Batch.addRebaseline (Batch.addRebaseline [] r1) r2)
      = Batch.performRebaselines files parseCalls
        (Batch.addRebaseline (Batch.addRebaseline [] r2) r1)
    ∧ (Batch.performRebaselines files parseCalls
        (Batch.addRebaseline (Batch.addRebaseline [] r1) r2)).unsatisfied = [] := by
  have hid12 : Batch.requestId r1 ≠ Batch.requestId r2 := by
    unfold Batch.requestId
    intro h
    exact hcol (congrArg Prod.snd h)
  have hsA : Batch.addRebaseline (Batch.addRebaseline [] r1) r2
      = [(r1.file, [(Batch.requestId r1, r1), (Batch.requestId r2, r2)])] := by
    have h1' : Batch.addRebaseline [] r1 = [(r1.file, [(Batch.requestId r1, r1)])] := rfl
    rw [h1']
    simp only [Batch.addRebaseline, if_pos hfile]
    simp only [Batch.setPair]
    rw [if_neg hid12]
  have hsB : Batch.addRebaseline (Batch.addRebaseline [] r2) r1
      = [(r1.file, [(Batch.requestId r2, r2), (Batch.requestId r1, r1)])] := by
    have h1' : Batch.addRebaseline [] r2 = [(r2.file, [(Batch.requestId r2, r2)])] := rfl
    rw [h1']
    simp only [Batch.addRebaseline, if_pos hfile.symm]
    simp only [Batch.setPair]
    rw [if_neg (Ne.symm hid12), ← hfile]
  have hb12 : Batch.beforeDesc r1 r2 = decide (r2.columnNumber ≤ r1.columnNumber) := by
    unfold Batch.beforeDesc
    rw [if_neg (by simp [hline])]
  have hb21 : Batch.beforeDesc r2 r1 = decide (r1.columnNumber ≤ r2.columnNumber) := by
    unfold Batch.beforeDesc
    rw [if_neg (by simp [hline])]
  have hsort : Rebase.sortBy Batch.beforeDesc [r1, r2]
      = Rebase.sortBy Batch.beforeDesc [r2, r1] := by
    rw [Rebase.sortBy_pair, Rebase.sortBy_pair, hb12, hb21]
    rcases Nat.lt_or_ge r1.columnNumber r2.columnNumber with hc | hc
    · rw [if_neg (by simp only [decide_eq_true_eq]; omega),
          if_pos (by simp only [decide_eq_true_eq]; omega)]
    · have hc' : r2.columnNumber < r1.columnNumber := by omega
      rw [if_pos (by simp only [decide_eq_true_eq]; omega),
          if_neg (by simp only [decide_eq_true_eq]; omega)]
  have hpf : Batch.processFile files parseCalls r1.file
      [(Batch.requestId r1, r1), (Batch.requestId r2, r2)]
      = Batch.processFile files parseCalls r1.file
        [(Batch.requestId r2, r2), (Batch.requestId r1, r1)] := by
    simp only [Batch.processFile, List.map_cons, List.map_nil]
    rw [hsort]
  have happly : ∀ (q : Batch.RebaselinePayload) (sc : Batch.SourceCode),
      sc.lineEndings = (Batch.SourceCode.make r1.file (files r1.file)).lineEndings →
      q = r1 ∨ q = r2 →
      (Batch.applyRequest sc
        (Batch.extractSourceCodeMatchers (parseCalls (files r1.file))) q).2 = none := by
    intro q sc hle hq
    have hpo : ∀ a b : Nat, sc.positionToOffset a b
        = (Batch.SourceCode.make r1.file (files r1.file)).positionToOffset a b :=
      fun a b => Batch.positionToOffset_congr _ _ hle a b
    rcases hq with rfl | rfl
    · obtain ⟨i, hbs, hname⟩ := h1
      refine Batch.applyRequest_applied sc _ q i ?_ hname
      simp only [hpo]
      exact hbs
    · obtain ⟨i, hbs, hname⟩ := h2
      refine Batch.applyRequest_applied sc _ q i ?_ hname
      simp only [hpo]
      exact hbs
  have hunsat : (Batch.processFile files parseCalls r1.file
      [(Batch.requestId r1, r1), (Batch.requestId r2, r2)]).2 = [] := by
    simp only [Batch.processFile, List.map_cons, List.map_nil]
    have hcases : Rebase.sortBy Batch.beforeDesc [r1, r2] = [r1, r2]
        ∨ Rebase.sortBy Batch.beforeDesc [r1, r2] = [r2, r1] := by
      rw [Rebase.sortBy_pair]
      by_cases hb : Batch.beforeDesc r1 r2 = true
      · rw [if_pos hb]
        exact Or.inl rfl
      · rw [if_neg hb]
        exact Or.inr rfl
    rcases hcases with hc | hc
    · rw [hc]
      simp only [List.foldl_cons, List.foldl_nil]
      rw [Batch.applyStep_applied' _ _ _ _ (happly r1 _ rfl (Or.inl rfl))]
      rw [Batch.applyStep_applied' _ _ _ _
        (happly r2 _ (Batch.applyRequest_lineEndings _ _ _) (Or.inr rfl))]
    · rw [hc]
      simp only [List.foldl_cons, List.foldl_nil]
      rw [Batch.applyStep_applied' _ _ _ _ (happly r2 _ rfl (Or.inr rfl))]
      rw [Batch.applyStep_applied' _ _ _ _
        (happly r1 _ (Batch.applyRequest_lineEndings _ _ _) (Or.inl rfl))]
  constructor
  · rw [hsA, hsB, Batch.performRebaselines_single, Batch.performRebaselines_single, hpf]
  · rw [hsA, Batch.performRebaselines_single]
    exact hunsat

/-- Witness for C7: two `toBe` requests on line 1 at columns 11 and 31 of
`"expect(1).toBe(2);  expect(3).toBe(4);"` (matcher calls at offsets 10 and
30), registered in either order, give identical runs and leave nothing
unsatisfied. -/
theorem c7_batch_order_independence_witness :
    Batch.performRebaselines (fun _ => "expect(1).toBe(2);  expect(3).toBe(4);".data)
        (fun _ => [⟨.member "toBe" 10, .cons (.lit 15 16) .nil, 17⟩,
                   ⟨.member "toBe" 30, .cons (.lit 35 36) .nil, 37⟩])
        (Batch.addRebaseline (Batch.addRebaseline []
          { file := "a", lineNumber := 1, columnNumber := 11, matcherName := "toBe",
            newExpected := .num 9 })
          { file := "a", lineNumber := 1, columnNumber := 31, matcherName := "toBe",
            newExpected := .num 7 })
      = Batch.performRebaselines (fun _ => "expect(1).toBe(2);  expect(3).toBe(4);".data)
        (fun _ => [⟨.member "toBe" 10, .cons (.lit 15 16) .nil, 17⟩,
                   ⟨.member "toBe" 30, .cons (.lit 35 36) .nil, 37⟩])
        (Batch.addRebaseline (Batch.addRebaseline []
          { file := "a", lineNumber := 1, columnNumber := 31, matcherName := "toBe",
            newExpected := .num 7 })
          { file := "a", lineNumber := 1, columnNumber := 11, matcherName := "toBe",
            newExpected := .num 9 })
    ∧ (Batch.performRebaselines (fun _ => "expect(1).toBe(2);  expect(3).toBe(4);".data)
        (fun _ => [⟨.member "toBe" 10, .cons (.lit 15 16) .nil, 17⟩,
                   ⟨.member "toBe" 30, .cons (.lit 35 36) .nil, 37⟩])
        (Batch.addRebaseline (Batch.addRebaseline []
          { file := "a", lineNumber := 1, columnNumber := 11, matcherName := "toBe",
            newExpected := .num 9 })
          { file := "a", lineNumber := 1, columnNumber := 31, matcherName := "toBe",
            newExpected := .num 7 })).unsatisfied = [] :=
  c7_batch_order_independence (fun _ => "expect(1).toBe(2);  expect(3).toBe(4);".data)
    (fun _ => [⟨.member "toBe" 10, .cons (.lit 15 16) .nil, 17⟩,
               ⟨.member "toBe" 30, .cons (.lit 35 36) .nil, 37⟩])
    { file := "a", lineNumber := 1, columnNumber := 11, matcherName := "toBe",
      newExpected := .num 9 }
    { file := "a", lineNumber := 1, columnNumber := 31, matcherName := "toBe",
      newExpected := .num 7 }
    rfl rfl (by decide) ⟨0, by decide, by decide⟩ ⟨1, by decide, by decide⟩
